import Mathlib

/-!
# The `extip` data source: resolver client and read procedure

A shallow embedding of `internal/provider/data_source_extip.go`
(`getExternalIPFrom`, `dataSourceExtipRead`) together with the Go library
functions whose behaviour the provider's contract depends on
(`bytes.TrimSpace` and the `unicode/utf8` decoders behind it,
`unicode.IsSpace`, the dispatch of `net.ParseIP`, `diag.FromErr`, the `%d`
verb of `fmt.Errorf`, and `time.Duration` arithmetic).

Conventions
* a Go `string` / `[]byte` is a list of bytes (`Fin 256`); it need not be UTF-8;
* a Go `error` is its message, `nil` is `none`;
* a Go `int`, `int64` or `time.Duration` is an `Int`, wrapped explicitly
  to 64 bits where the program does arithmetic on it;
* index loops carry a fuel argument equal to the length of the slice; the
  loop specifications and the adequacy lemmas below show it never runs out.
-/

namespace Extip

/-- One byte of a Go `string` or `[]byte`. -/
abbrev Byte := Fin 256

/-- A Go `string` or `[]byte`: any byte sequence. -/
abbrev GoBytes := List Byte

/-- A Go `rune`; the decoders only produce non-negative values. -/
abbrev Rune := Nat

/-- The bytes of a Lean string literal whose characters are all ASCII. -/
def asciiBytes (s : String) : GoBytes :=
  s.toList.map fun c => Fin.ofNat c.toNat

/-! ## `unicode/utf8` -/

namespace utf8

def RuneError : Rune := 0xFFFD
def RuneSelf : Nat := 0x80
def UTFMax : Nat := 4

def maskx : Nat := 0x3F
def mask2 : Nat := 0x1F
def mask3 : Nat := 0x0F
def mask4 : Nat := 0x07

def locb : Nat := 0x80
def hicb : Nat := 0xBF

def xx : Nat := 0xF1
def as : Nat := 0xF0
def s1 : Nat := 0x02
def s2 : Nat := 0x13
def s3 : Nat := 0x03
def s4 : Nat := 0x23
def s5 : Nat := 0x34
def s6 : Nat := 0x04
def s7 : Nat := 0x44

/-- The table `first`: information about the first byte of a UTF-8 sequence. -/
def first (p0 : Nat) : Nat :=
  if p0 < 0x80 then as            -- 0x00-0x7F
  else if p0 < 0xC2 then xx       -- 0x80-0xC1
  else if p0 < 0xE0 then s1       -- 0xC2-0xDF
  else if p0 = 0xE0 then s2       -- 0xE0
  else if p0 < 0xED then s3       -- 0xE1-0xEC
  else if p0 = 0xED then s4       -- 0xED
  else if p0 < 0xF0 then s3       -- 0xEE-0xEF
  else if p0 = 0xF0 then s5       -- 0xF0
  else if p0 < 0xF4 then s6       -- 0xF1-0xF3
  else if p0 = 0xF4 then s7       -- 0xF4
  else xx                         -- 0xF5-0xFF

/-- The table `acceptRanges` (sixteen entries, the last eleven zero): the
accepted range `(lo, hi)` of the second byte. -/
def acceptRanges (i : Nat) : Nat × Nat :=
  match i with
  | 0 => (locb, hicb)
  | 1 => (0xA0, hicb)
  | 2 => (locb, 0x9F)
  | 3 => (0x90, hicb)
  | 4 => (locb, 0x8F)
  | _ => (0, 0)

/-- The function `utf8.DecodeRune`: the first rune of `p` and its width in bytes. -/
def DecodeRune (p : GoBytes) : Rune × Nat :=
  let n := p.length
  if n < 1 then (RuneError, 0)
  else
    let p0 := (p.getD 0 0).val
    let x := first p0
    if x ≥ as then
      -- mask := rune(x) << 31 >> 31 : all ones when x is odd (x = xx), else zero
      let mask := if x % 2 = 1 then 0xFFFFFFFF else 0
      ((p0 &&& (0xFFFFFFFF ^^^ mask)) ||| (RuneError &&& mask), 1)
    else
      let sz := x &&& 7
      let accept := acceptRanges (x >>> 4)
      if n < sz then (RuneError, 1)
      else
        let b1 := (p.getD 1 0).val
        if b1 < accept.1 ∨ accept.2 < b1 then (RuneError, 1)
        else if sz ≤ 2 then (((p0 &&& mask2) <<< 6) ||| (b1 &&& maskx), 2)
        else
          let b2 := (p.getD 2 0).val
          if b2 < locb ∨ hicb < b2 then (RuneError, 1)
          else if sz ≤ 3 then
            (((p0 &&& mask3) <<< 12) ||| ((b1 &&& maskx) <<< 6) ||| (b2 &&& maskx), 3)
          else
            let b3 := (p.getD 3 0).val
            if b3 < locb ∨ hicb < b3 then (RuneError, 1)
            else
              (((p0 &&& mask4) <<< 18) ||| ((b1 &&& maskx) <<< 12) |||
                ((b2 &&& maskx) <<< 6) ||| (b3 &&& maskx), 4)

/-- The function `utf8.RuneStart`: `b` is not a continuation byte. -/
def RuneStart (b : Nat) : Bool := (b &&& 0xC0) != 0x80

/-- The backward scan of `utf8.DecodeLastRune`:
`for start--; start >= lim; start-- { if RuneStart(p[start]) { break } }`,
entered after the first `start--`.  It runs at most `UTFMax` times. -/
def DecodeLastRune.scan (p : GoBytes) (lim : Int) : Nat → Int → Int
  | 0, start => start
  | fuel + 1, start =>
    if start ≥ lim then
      if RuneStart (p.getD start.toNat 0).val then start
      else DecodeLastRune.scan p lim fuel (start - 1)
    else start

/-- The function `utf8.DecodeLastRune`: the last rune of `p` and its width. -/
def DecodeLastRune (p : GoBytes) : Rune × Nat :=
  let end_ : Int := p.length
  if end_ = 0 then (RuneError, 0)
  else
    let start := end_ - 1
    let r := (p.getD start.toNat 0).val
    if r < RuneSelf then (r, 1)
    else
      let lim := end_ - UTFMax
      let lim := if lim < 0 then 0 else lim
      let start := DecodeLastRune.scan p lim UTFMax (start - 1)
      let start := if start < 0 then 0 else start
      let rs := DecodeRune ((p.take end_.toNat).drop start.toNat)
      if start + rs.2 ≠ end_ then (RuneError, 1)
      else rs

end utf8

/-! ## `unicode` -/

namespace unicode

def MaxLatin1 : Rune := 0xFF

/-- A `Range16` / `Range32` entry: `Lo`, `Hi`, `Stride`. -/
structure Range where
  Lo : Nat
  Hi : Nat
  Stride : Nat
deriving DecidableEq, Repr

/-- A `RangeTable`. -/
structure RangeTable where
  R16 : List Range
  R32 : List Range
  LatinOffset : Nat

/-- The table `unicode.White_Space`. -/
def White_Space : RangeTable where
  R16 := [⟨0x0009, 0x000d, 1⟩, ⟨0x0020, 0x0085, 101⟩, ⟨0x00a0, 0x1680, 5600⟩,
          ⟨0x2000, 0x200a, 1⟩, ⟨0x2028, 0x2029, 1⟩, ⟨0x202f, 0x205f, 48⟩,
          ⟨0x3000, 0x3000, 1⟩]
  R32 := []
  LatinOffset := 2

/-- The linear search of `is16` / `is32` (tables of at most `linearMax`
entries): is `r` in the sorted range list? -/
def isInRanges : List Range → Rune → Bool
  | [], _ => false
  | range :: rest, r =>
    if r < range.Lo then false
    else if r ≤ range.Hi then range.Stride == 1 || (r - range.Lo) % range.Stride == 0
    else isInRanges rest r

/-- The function `isExcludingLatin`. -/
def isExcludingLatin (rangeTab : RangeTable) (r : Rune) : Bool :=
  let r16 := rangeTab.R16
  let off := rangeTab.LatinOffset
  if r16.length > off ∧ r ≤ (r16.getD (r16.length - 1) ⟨0, 0, 0⟩).Hi then
    isInRanges (r16.drop off) r
  else
    let r32 := rangeTab.R32
    if r32.length > 0 ∧ r ≥ (r32.getD 0 ⟨0, 0, 0⟩).Lo then isInRanges r32 r
    else false

/-- The function `unicode.IsSpace`. -/
def IsSpace (r : Rune) : Bool :=
  if r ≤ MaxLatin1 then
    r == 9 || r == 10 || r == 11 || r == 12 || r == 13 || r == 32 || r == 0x85 || r == 0xA0
  else isExcludingLatin White_Space r

end unicode

/-! ## `bytes` -/

namespace bytes

/-- The table `asciiSpace`: `'\t'`, `'\n'`, `'\v'`, `'\f'`, `'\r'`, `' '`. -/
def asciiSpace (c : Nat) : Nat :=
  if c = 9 ∨ c = 10 ∨ c = 11 ∨ c = 12 ∨ c = 13 ∨ c = 32 then 1 else 0

/-- The loop of `indexFunc`, from index `start`. -/
def indexFunc.loop (s : GoBytes) (f : Rune → Bool) (truth : Bool) : Nat → Nat → Int
  | 0, _ => -1
  | fuel + 1, start =>
    if start < s.length then
      let c := (s.getD start 0).val
      let rw := if c ≥ utf8.RuneSelf then utf8.DecodeRune (s.drop start) else (c, 1)
      if f rw.1 == truth then (start : Int)
      else indexFunc.loop s f truth fuel (start + rw.2)
    else -1

/-- The function `indexFunc`: the index of the first rune `r` of `s` with
`f(r) == truth`, or `-1`. -/
def indexFunc (s : GoBytes) (f : Rune → Bool) (truth : Bool) : Int :=
  indexFunc.loop s f truth s.length 0

/-- The loop of `lastIndexFunc`, with `i` the end of the unread prefix. -/
def lastIndexFunc.loop (s : GoBytes) (f : Rune → Bool) (truth : Bool) : Nat → Int → Int
  | 0, _ => -1
  | fuel + 1, i =>
    if i > 0 then
      let c := (s.getD (i - 1).toNat 0).val
      let rs := if c ≥ utf8.RuneSelf then utf8.DecodeLastRune (s.take i.toNat) else (c, 1)
      let i := i - rs.2
      if f rs.1 == truth then i
      else lastIndexFunc.loop s f truth fuel i
    else -1

/-- The function `lastIndexFunc`: the index of the last rune `r` of `s` with
`f(r) == truth`, or `-1`. -/
def lastIndexFunc (s : GoBytes) (f : Rune → Bool) (truth : Bool) : Int :=
  lastIndexFunc.loop s f truth s.length s.length

/-- The function `bytes.TrimLeftFunc`. -/
def TrimLeftFunc (s : GoBytes) (f : Rune → Bool) : GoBytes :=
  let i := indexFunc s f false
  if i = -1 then []
  else s.drop i.toNat

/-- The function `bytes.TrimRightFunc`. -/
def TrimRightFunc (s : GoBytes) (f : Rune → Bool) : GoBytes :=
  let i := lastIndexFunc s f false
  let i :=
    if i ≥ 0 ∧ (s.getD i.toNat 0).val ≥ utf8.RuneSelf then
      i + (utf8.DecodeRune (s.drop i.toNat)).2
    else i + 1
  s.take i.toNat

/-- The function `bytes.TrimFunc`. -/
def TrimFunc (s : GoBytes) (f : Rune → Bool) : GoBytes :=
  TrimRightFunc (TrimLeftFunc s f) f

/-- The first loop of `bytes.TrimSpace`: the index of the first byte that is
not an ASCII space (`ok start`), or the early return through `TrimFunc` when a
non-ASCII byte is met first (`error result`). -/
def TrimSpace.scanStart (s : GoBytes) : Nat → Nat → Except GoBytes Nat
  | 0, start => .ok start
  | fuel + 1, start =>
    if start < s.length then
      let c := (s.getD start 0).val
      if c ≥ utf8.RuneSelf then .error (TrimFunc (s.drop start) unicode.IsSpace)
      else if asciiSpace c = 0 then .ok start
      else TrimSpace.scanStart s fuel (start + 1)
    else .ok start

/-- The second loop of `bytes.TrimSpace`, scanning back from `stop`. -/
def TrimSpace.scanStop (s : GoBytes) (start : Nat) : Nat → Nat → Except GoBytes Nat
  | 0, stop => .ok stop
  | fuel + 1, stop =>
    if stop > start then
      let c := (s.getD (stop - 1) 0).val
      if c ≥ utf8.RuneSelf then
        .error (TrimFunc ((s.take stop).drop start) unicode.IsSpace)
      else if asciiSpace c = 0 then .ok stop
      else TrimSpace.scanStop s start fuel (stop - 1)
    else .ok stop

/-- The function `bytes.TrimSpace`: `s` without its leading and trailing white
space, as defined by Unicode. -/
def TrimSpace (s : GoBytes) : GoBytes :=
  match TrimSpace.scanStart s s.length 0 with
  | .error r => r
  | .ok start =>
    match TrimSpace.scanStop s start s.length s.length with
    | .error r => r
    | .ok stop =>
      if start = stop then []
      else (s.take stop).drop start

end bytes

/-! ## `net` -/

namespace net

/-- A Go `net.IP`: a byte slice; the `nil` result of a parser is `none`. -/
abbrev IP := GoBytes

/-- The two literal parsers `net.ParseIP` dispatches to.  They are library
code outside this repository and are taken as parameters: no property below
depends on which dotted-quad or colon-hex strings they accept. -/
structure Parsers where
  parseIPv4 : GoBytes → Option IP
  parseIPv6 : GoBytes → Option IP

/-- The loop of `net.ParseIP` over the bytes `s[i:]` still to be inspected:
the first `'.'` sends the whole string to `parseIPv4`, the first `':'` to
`parseIPv6`. -/
def ParseIP.loop (P : Parsers) (s : GoBytes) : GoBytes → Option IP
  | [] => none
  | c :: rest =>
    if c.val = 46 then P.parseIPv4 s          -- case '.'
    else if c.val = 58 then P.parseIPv6 s     -- case ':'
    else ParseIP.loop P s rest

/-- The function `net.ParseIP`: `none` is Go's `nil`. -/
def ParseIP (P : Parsers) (s : GoBytes) : Option IP :=
  ParseIP.loop P s s

end net

/-! ## `fmt`, `time`, `diag` -/

namespace fmt

/-- The verb `%d` applied to an `int`: a minus sign for a negative value, then
the decimal digits of the magnitude, most significant first, without padding. -/
def formatD (v : Int) : String :=
  if v < 0 then "-" ++ String.mk (Nat.toDigits 10 v.natAbs)
  else String.mk (Nat.toDigits 10 v.natAbs)

end fmt

namespace time

/-- Conversion to a signed 64-bit integer: the value modulo `2^64`, taken in
`[-2^63, 2^63)`. -/
def int64 (x : Int) : Int :=
  (x + 2 ^ 63) % 2 ^ 64 - 2 ^ 63

/-- The constant `time.Millisecond`, in nanoseconds. -/
def Millisecond : Int := 1000000

/-- The product of two `time.Duration` values: `int64` multiplication, which
wraps. -/
def Duration.mul (a b : Int) : Int :=
  int64 (a * b)

end time

namespace diag

/-- The type `diag.Severity`. -/
inductive Severity where
  | Error
  | Warning
deriving DecidableEq, Repr

/-- The fields of `diag.Diagnostic` that `diag.FromErr` fills. -/
structure Diagnostic where
  Severity : Severity
  Summary : String
  Detail : String
deriving DecidableEq, Repr

/-- The type `diag.Diagnostics`. -/
abbrev Diagnostics := List Diagnostic

/-- The function `diag.FromErr`: no diagnostic for a `nil` error (releases of
the SDK without the `nil` guard dereference the `nil` error instead and
panic), otherwise one diagnostic of severity `Error` whose summary is
`err.Error()`. -/
def FromErr (err : Option String) : Diagnostics :=
  match err with
  | none => []
  | some msg => [⟨Severity.Error, msg, ""⟩]

/-- The method `Diagnostics.HasError`. -/
def HasError (diags : Diagnostics) : Bool :=
  diags.any fun dg => dg.Severity == Severity.Error

end diag

/-! ## `net/http`: the network as seen by one `Get` -/

namespace http

/-- What `ioutil.ReadAll(rsp.Body)` returns for a response body: the bytes read
and the error that ended the read (`none` for a clean end of stream). -/
structure Body where
  data : GoBytes
  err : Option String
deriving DecidableEq

/-- The part of `http.Response` the provider looks at. -/
structure Response where
  StatusCode : Int
  Body : Body
deriving DecidableEq

/-- The network: what `(&http.Client{Timeout: timeout}).Get(url)` returns, a
response or a transport error. -/
abbrev Transport := (timeout : Int) → (url : String) → Except String Response

/-- The calls the resolver client makes, in order. -/
inductive Event where
  | Get (timeout : Int) (url : String)
  | ReadAll
  | Close
deriving DecidableEq, Repr

end http

namespace ioutil

/-- The function `ioutil.ReadAll` on a response body. -/
def ReadAll (body : http.Body) : GoBytes × Option String :=
  (body.data, body.err)

end ioutil

/-! ## `internal/provider/data_source_extip.go` -/

/-- The two results of `getExternalIPFrom`, and the calls it made. -/
structure ClientResult where
  ip : GoBytes
  err : Option String
  events : List http.Event
deriving DecidableEq

/-- The `Timeout` of the client built by `getExternalIPFrom`:
`time.Duration(clientTimeout) * time.Millisecond`. -/
def clientTimeoutDuration (clientTimeout : Int) : Int :=
  time.Duration.mul (time.int64 clientTimeout) time.Millisecond

/-- The function `getExternalIPFrom`. -/
def getExternalIPFrom (world : http.Transport) (service : String) (clientTimeout : Int) :
    ClientResult :=
  let timeout := clientTimeoutDuration clientTimeout
  match world timeout service with
  | .error err => ⟨[], some err, [.Get timeout service]⟩
  | .ok rsp =>
    -- defer rsp.Body.Close()
    if rsp.StatusCode ≠ 200 then
      ⟨[], some ("HTTP request error. Response code: " ++ fmt.formatD rsp.StatusCode),
        [.Get timeout service, .Close]⟩
    else
      let read := ioutil.ReadAll rsp.Body
      match read.2 with
      | some err => ⟨[], some err, [.Get timeout service, .ReadAll, .Close]⟩
      | none => ⟨bytes.TrimSpace read.1, none, [.Get timeout service, .ReadAll, .Close]⟩

/-- The `schema.ResourceData` of the data source: the three configuration
inputs (`validate_ip` as `d.GetOkExists` reports it: `none` when unset) and the
two computed outputs (`none` until set; both are unset when the host calls the
read of a data source, so a value found afterwards was published by the call). -/
structure ResourceData where
  resolver : String
  client_timeout : Int
  validate_ip : Option Bool
  ipaddress : Option GoBytes
  id : Option String
deriving DecidableEq

/-- The function `dataSourceExtipRead`; `now` is `time.Now().UTC().String()`.
The result is the returned diagnostics and the resource data after the call. -/
def dataSourceExtipRead (P : net.Parsers) (world : http.Transport) (now : String)
    (d : ResourceData) : diag.Diagnostics × ResourceData :=
  let resolver := d.resolver
  let clientTimeout := d.client_timeout
  let r := getExternalIPFrom world resolver clientTimeout
  let returned : Option diag.Diagnostics :=
    match d.validate_ip with
    | some v =>
      if v then
        match net.ParseIP P r.ip with
        | none => some (diag.FromErr r.err)
        | some _ => none
      else none
    | none => none
  match returned with
  | some diags => (diags, d)
  | none =>
    match r.err with
    | none => ([], { d with ipaddress := some r.ip, id := some now })
    | some _ => (diag.FromErr r.err, d)

/-! ## Vocabulary of the contract -/

/-- ASCII whitespace as the contract lists it: space, tab, LF, VT, FF, CR. -/
def isASCIIWhitespace (b : Byte) : Bool :=
  b.val = 32 ∨ b.val = 9 ∨ b.val = 10 ∨ b.val = 11 ∨ b.val = 12 ∨ b.val = 13

/-- The contract's normalisation: the body with exactly its leading and
trailing ASCII whitespace removed. -/
def trimASCIIWhitespace (body : GoBytes) : GoBytes :=
  (body.dropWhile isASCIIWhitespace).rdropWhile isASCIIWhitespace

/-- The ASCII-trimmed body is empty, or begins and ends with an ASCII byte. -/
def asciiAtBothEnds (body : GoBytes) : Bool :=
  (match (trimASCIIWhitespace body).head? with
    | some c => decide (c.val < 0x80)
    | none => true) &&
  (match (trimASCIIWhitespace body).getLast? with
    | some c => decide (c.val < 0x80)
    | none => true)

/-- The number a non-empty string of decimal digits spells, most significant
digit first. -/
def decimalDigits (cs : List Char) : Option Nat :=
  if cs ≠ [] ∧ cs.all Char.isDigit then
    some (cs.foldl (fun acc c => 10 * acc + (c.toNat - 48)) 0)
  else none

/-- The integer a decimal numeral spells: an optional minus sign followed by
decimal digits. -/
def decimalValue (s : String) : Option Int :=
  match s.toList with
  | [] => none
  | c :: cs =>
    if c = '-' then (decimalDigits cs).map fun (n : Nat) => -(n : Int)
    else (decimalDigits (c :: cs)).map fun (n : Nat) => (n : Int)

/-- A read succeeded: no diagnostic was returned and `ipaddress` was set. -/
def ReadSucceeded (out : diag.Diagnostics × ResourceData) : Prop :=
  out.1 = [] ∧ out.2.ipaddress.isSome

/-! ## Fixtures for concrete runs -/

/-- A network that answers every request with the same outcome. -/
def constTransport (outcome : Except String http.Response) : http.Transport :=
  fun _ _ => outcome

/-- A network that answers 200 with the given body. -/
def okTransport (body : GoBytes) : http.Transport :=
  constTransport (.ok ⟨200, ⟨body, none⟩⟩)

/-- Literal parsers that accept every string handed to them. -/
def acceptingParsers : net.Parsers :=
  ⟨fun s => some s, fun s => some s⟩

/-- A configuration with the schema defaults and nothing computed yet. -/
def defaultConfig (validate_ip : Option Bool) : ResourceData :=
  ⟨"https://checkip.amazonaws.com/", 1000, validate_ip, none, none⟩

/-! ## The literal parser and the read procedure, case by case -/

/-- The loop of `net.ParseIP` finds nothing to dispatch on in bytes that hold
neither `'.'` nor `':'`. -/
theorem ParseIP_loop_none (P : net.Parsers) (s rest : GoBytes)
    (h : ∀ c ∈ rest, c.val ≠ 46 ∧ c.val ≠ 58) : net.ParseIP.loop P s rest = none := by
  induction rest with
  | nil => rfl
  | cons c rest ih =>
    have hc := h c (List.mem_cons_self _ _)
    simp only [net.ParseIP.loop, hc.1, hc.2, if_false]
    exact ih fun x hx => h x (List.mem_cons_of_mem _ hx)

/-- A string without `'.'` and without `':'` does not parse as an IP literal,
whatever the two literal parsers accept. -/
theorem ParseIP_none_of_no_separator (P : net.Parsers) (s : GoBytes)
    (h : ∀ c ∈ s, c.val ≠ 46 ∧ c.val ≠ 58) : net.ParseIP P s = none :=
  ParseIP_loop_none P s s h

/-- The read procedure by cases on the client's result. -/
theorem dataSourceExtipRead_eq (P : net.Parsers) (world : http.Transport) (now : String)
    (d : ResourceData) :
    dataSourceExtipRead P world now d =
      match (getExternalIPFrom world d.resolver d.client_timeout).err with
      | some msg => ([⟨diag.Severity.Error, msg, ""⟩], d)
      | none =>
        if d.validate_ip = some true ∧
            net.ParseIP P (getExternalIPFrom world d.resolver d.client_timeout).ip = none then
          ([], d)
        else
          ([], { d with
            ipaddress := some (getExternalIPFrom world d.resolver d.client_timeout).ip,
            id := some now }) := by
  unfold dataSourceExtipRead
  rcases hv : d.validate_ip with _ | v
  · cases herr : (getExternalIPFrom world d.resolver d.client_timeout).err <;>
      simp [diag.FromErr, herr]
  · cases v <;>
    cases herr : (getExternalIPFrom world d.resolver d.client_timeout).err <;>
    cases hp : net.ParseIP P (getExternalIPFrom world d.resolver d.client_timeout).ip <;>
      simp [diag.FromErr, hp, herr]

/-! ## Decimal rendering -/

/-- The character of a decimal digit is a digit and spells its value. -/
theorem digitChar_spec : ∀ k, k < 10 →
    (Nat.digitChar k).isDigit = true ∧ (Nat.digitChar k).toNat - 48 = k := by
  decide

/-- The digit loop prepends to `ds` a non-empty run of decimal digits that
spells `n`, given fuel above `n`. -/
theorem toDigitsCore_spec (fuel : Nat) : ∀ (n : Nat) (ds : List Char), n < fuel →
    ∃ pre, Nat.toDigitsCore 10 fuel n ds = pre ++ ds ∧ pre ≠ [] ∧
      (∀ c ∈ pre, c.isDigit = true) ∧
      pre.foldl (fun acc c => 10 * acc + (c.toNat - 48)) 0 = n := by
  induction fuel with
  | zero => intro n ds h; omega
  | succ fuel ih =>
    intro n ds h
    by_cases h0 : n / 10 = 0
    · have hn : n < 10 := by omega
      have hmod : n % 10 = n := Nat.mod_eq_of_lt hn
      refine ⟨[Nat.digitChar n], ?_, by simp, ?_, ?_⟩
      · simp [Nat.toDigitsCore, h0, hmod]
      · intro c hc
        rw [List.mem_singleton] at hc
        rw [hc]
        exact (digitChar_spec n hn).1
      · simpa using (digitChar_spec n hn).2
    · obtain ⟨pre, hpre, -, hdig, hval⟩ :=
        ih (n / 10) (Nat.digitChar (n % 10) :: ds) (by omega)
      refine ⟨pre ++ [Nat.digitChar (n % 10)], ?_, by simp, ?_, ?_⟩
      · simp [Nat.toDigitsCore, h0, hpre]
      · intro c hc
        rcases List.mem_append.mp hc with hc | hc
        · exact hdig c hc
        · rw [List.mem_singleton] at hc
          rw [hc]
          exact (digitChar_spec _ (Nat.mod_lt _ (by decide))).1
      · rw [List.foldl_append, hval]
        simp only [List.foldl_cons, List.foldl_nil]
        rw [(digitChar_spec _ (Nat.mod_lt _ (by decide))).2]
        omega

/-- The decimal digits of `n` spell `n` and do not start with a minus sign. -/
theorem decimalDigits_toDigits (n : Nat) :
    decimalDigits (Nat.toDigits 10 n) = some n ∧
      ∃ c cs, Nat.toDigits 10 n = c :: cs ∧ c ≠ '-' := by
  obtain ⟨pre, hpre, hne, hdig, hval⟩ := toDigitsCore_spec (n + 1) n [] (by omega)
  rw [List.append_nil] at hpre
  have htd : Nat.toDigits 10 n = pre := hpre
  rw [htd]
  constructor
  · unfold decimalDigits
    rw [if_pos ⟨hne, List.all_eq_true.mpr hdig⟩, hval]
  · cases pre with
    | nil => exact absurd rfl hne
    | cons c cs =>
      refine ⟨c, cs, rfl, ?_⟩
      intro hc
      have := hdig c (List.mem_cons_self _ _)
      rw [hc] at this
      exact absurd this (by decide)

/-- The rendering of `%d` spells the number it was given. -/
theorem decimalValue_formatD (v : Int) : decimalValue (fmt.formatD v) = some v := by
  obtain ⟨hval, c, cs, hcs, hc⟩ := decimalDigits_toDigits v.natAbs
  unfold fmt.formatD
  by_cases hv : v < 0
  · rw [if_pos hv]
    have : ("-" ++ String.mk (Nat.toDigits 10 v.natAbs)).toList = '-' :: Nat.toDigits 10 v.natAbs := by
      simp [String.toList]
    unfold decimalValue
    rw [this]
    simp only [if_true, hval, Option.map_some']
    rw [Int.ofNat_natAbs_of_nonpos (le_of_lt hv), neg_neg]
  · rw [if_neg hv]
    unfold decimalValue
    have : (String.mk (Nat.toDigits 10 v.natAbs)).toList = c :: cs := by
      simp [String.toList, hcs]
    rw [this]
    simp only [if_neg hc]
    rw [← hcs, hval]
    simp only [Option.map_some']
    rw [Int.natAbs_of_nonneg (not_lt.mp hv)]

/-! ## The resolver client, case by case -/

/-- The client on a transport error of the `Get`. -/
theorem getExternalIPFrom_of_error (world : http.Transport) (service : String)
    (clientTimeout : Int) (e : String)
    (hget : world (clientTimeoutDuration clientTimeout) service = .error e) :
    getExternalIPFrom world service clientTimeout =
      ⟨[], some e, [.Get (clientTimeoutDuration clientTimeout) service]⟩ := by
  simp only [getExternalIPFrom, hget]

/-- The client on a response whose status is not 200. -/
theorem getExternalIPFrom_of_status (world : http.Transport) (service : String)
    (clientTimeout : Int) (rsp : http.Response)
    (hget : world (clientTimeoutDuration clientTimeout) service = .ok rsp)
    (hcode : rsp.StatusCode ≠ 200) :
    getExternalIPFrom world service clientTimeout =
      ⟨[], some ("HTTP request error. Response code: " ++ fmt.formatD rsp.StatusCode),
        [.Get (clientTimeoutDuration clientTimeout) service, .Close]⟩ := by
  simp only [getExternalIPFrom, hget, hcode, ne_eq, not_false_eq_true, if_true]

/-- The client on a 200 response whose body read ends in an error. -/
theorem getExternalIPFrom_of_read_error (world : http.Transport) (service : String)
    (clientTimeout : Int) (data : GoBytes) (e : String)
    (hget : world (clientTimeoutDuration clientTimeout) service =
      .ok ⟨200, ⟨data, some e⟩⟩) :
    getExternalIPFrom world service clientTimeout =
      ⟨[], some e, [.Get (clientTimeoutDuration clientTimeout) service, .ReadAll, .Close]⟩ := by
  simp [getExternalIPFrom, hget, ioutil.ReadAll]

/-- The client on a 200 response whose body is read to the end. -/
theorem getExternalIPFrom_of_body (world : http.Transport) (service : String)
    (clientTimeout : Int) (data : GoBytes)
    (hget : world (clientTimeoutDuration clientTimeout) service =
      .ok ⟨200, ⟨data, none⟩⟩) :
    getExternalIPFrom world service clientTimeout =
      ⟨bytes.TrimSpace data, none,
        [.Get (clientTimeoutDuration clientTimeout) service, .ReadAll, .Close]⟩ := by
  simp [getExternalIPFrom, hget, ioutil.ReadAll]

/-- The resolver client fails in exactly three ways: the transport error of
the `Get`, a status other than 200, or the error that ended the body read. -/
theorem getExternalIPFrom_err_iff (world : http.Transport) (service : String)
    (clientTimeout : Int) (msg : String) :
    (getExternalIPFrom world service clientTimeout).err = some msg ↔
      world (clientTimeoutDuration clientTimeout) service = .error msg ∨
      (∃ rsp, world (clientTimeoutDuration clientTimeout) service = .ok rsp ∧
        rsp.StatusCode ≠ 200 ∧
        msg = "HTTP request error. Response code: " ++ fmt.formatD rsp.StatusCode) ∨
      (∃ rsp, world (clientTimeoutDuration clientTimeout) service = .ok rsp ∧
        rsp.StatusCode = 200 ∧ rsp.Body.err = some msg) := by
  cases hget : world (clientTimeoutDuration clientTimeout) service with
  | error e => simp [getExternalIPFrom_of_error _ _ _ _ hget]
  | ok rsp =>
    obtain ⟨code, data, err⟩ := rsp
    by_cases hcode : code = 200
    · subst hcode
      cases err with
      | none => simp [getExternalIPFrom_of_body _ _ _ _ hget]
      | some e => simp [getExternalIPFrom_of_read_error _ _ _ _ _ hget]
    · simp [getExternalIPFrom_of_status _ _ _ _ hget hcode, hcode, eq_comm]

/-- A failed client returns the empty string. -/
theorem getExternalIPFrom_ip_of_err (world : http.Transport) (service : String)
    (clientTimeout : Int) (msg : String)
    (h : (getExternalIPFrom world service clientTimeout).err = some msg) :
    (getExternalIPFrom world service clientTimeout).ip = [] := by
  cases hget : world (clientTimeoutDuration clientTimeout) service with
  | error e => simp [getExternalIPFrom_of_error _ _ _ _ hget]
  | ok rsp =>
    obtain ⟨code, data, err⟩ := rsp
    by_cases hcode : code = 200
    · subst hcode
      cases err with
      | none => simp [getExternalIPFrom_of_body _ _ _ _ hget] at h
      | some e => simp [getExternalIPFrom_of_read_error _ _ _ _ _ hget]
    · simp [getExternalIPFrom_of_status _ _ _ _ hget hcode]

/-- A successful client returns the trimmed body of a 200 response. -/
theorem getExternalIPFrom_ok (world : http.Transport) (service : String)
    (clientTimeout : Int)
    (h : (getExternalIPFrom world service clientTimeout).err = none) :
    ∃ body, world (clientTimeoutDuration clientTimeout) service = .ok ⟨200, ⟨body, none⟩⟩ ∧
      (getExternalIPFrom world service clientTimeout).ip = bytes.TrimSpace body := by
  cases hget : world (clientTimeoutDuration clientTimeout) service with
  | error e => simp [getExternalIPFrom_of_error _ _ _ _ hget] at h
  | ok rsp =>
    obtain ⟨code, data, err⟩ := rsp
    by_cases hcode : code = 200
    · subst hcode
      cases err with
      | none => exact ⟨data, rfl, by simp [getExternalIPFrom_of_body _ _ _ _ hget]⟩
      | some e => simp [getExternalIPFrom_of_read_error _ _ _ _ _ hget] at h
    · simp [getExternalIPFrom_of_status _ _ _ _ hget hcode] at h

/-- C1: for every response whose status code is not 200 (2xx codes such as
204 included, whatever the body holds and whether or not it could be read),
`getExternalIPFrom` returns the empty string and an error whose message is
exactly `HTTP request error. Response code: ` followed by the status code in
decimal; the body is not read (no `ReadAll` call is made, and the result is
the same for every body). -/
theorem getExternalIPFrom_status_not_200 (world : http.Transport) (service : String)
    (clientTimeout : Int) (rsp : http.Response)
    (hget : world (clientTimeoutDuration clientTimeout) service = .ok rsp)
    (hcode : rsp.StatusCode ≠ 200) :
    (getExternalIPFrom world service clientTimeout).ip = [] ∧
    (getExternalIPFrom world service clientTimeout).err =
      some ("HTTP request error. Response code: " ++ fmt.formatD rsp.StatusCode) ∧
    decimalValue (fmt.formatD rsp.StatusCode) = some rsp.StatusCode ∧
    http.Event.ReadAll ∉ (getExternalIPFrom world service clientTimeout).events ∧
    ∀ body : http.Body,
      getExternalIPFrom (constTransport (.ok ⟨rsp.StatusCode, body⟩)) service clientTimeout =
        getExternalIPFrom world service clientTimeout := by
  have h := getExternalIPFrom_of_status world service clientTimeout rsp hget hcode
  refine ⟨by rw [h], by rw [h], decimalValue_formatD _, by rw [h]; simp, ?_⟩
  intro body
  rw [h]
  exact getExternalIPFrom_of_status _ service clientTimeout ⟨rsp.StatusCode, body⟩ rfl hcode

/-- Witness of C1: a 204 response with a readable body. -/
theorem getExternalIPFrom_status_not_200_witness :
    (getExternalIPFrom (constTransport (.ok ⟨204, ⟨asciiBytes "127.0.0.1", none⟩⟩))
        "http://resolver/" 1000).ip = [] ∧
    (getExternalIPFrom (constTransport (.ok ⟨204, ⟨asciiBytes "127.0.0.1", none⟩⟩))
        "http://resolver/" 1000).err = some "HTTP request error. Response code: 204" := by
  have h := getExternalIPFrom_status_not_200
    (constTransport (.ok ⟨204, ⟨asciiBytes "127.0.0.1", none⟩⟩)) "http://resolver/" 1000
    ⟨204, ⟨asciiBytes "127.0.0.1", none⟩⟩ rfl (by decide)
  exact ⟨h.1, h.2.1.trans (by rfl)⟩

/-- C2 (the code at the failing input): with `validate_ip = true`, a 200
response with body `HELLO!` makes `dataSourceExtipRead` return no diagnostic at
all, and set nothing: the failed validation hands the `nil` client error to
`diag.FromErr`. -/
theorem dataSourceExtipRead_non_ip_body (P : net.Parsers) (now : String) :
    dataSourceExtipRead P (okTransport (asciiBytes "HELLO!")) now (defaultConfig (some true)) =
      ([], defaultConfig (some true)) := by
  have hip := getExternalIPFrom_of_body (okTransport (asciiBytes "HELLO!"))
    (defaultConfig (some true)).resolver (defaultConfig (some true)).client_timeout
    (asciiBytes "HELLO!") rfl
  have htrim : bytes.TrimSpace (asciiBytes "HELLO!") = asciiBytes "HELLO!" := by decide
  have hparse : net.ParseIP P (asciiBytes "HELLO!") = none :=
    ParseIP_none_of_no_separator P _ (by simp [asciiBytes]; decide)
  rw [dataSourceExtipRead_eq, hip, htrim]
  simp [hparse, defaultConfig]

/-- C3: whenever the resolver client fails with message `msg` (a transport
error of the GET, a status other than 200, or an error while reading the
body), `dataSourceExtipRead` returns exactly one diagnostic, of severity
`Error`, whose summary is `msg`, and this for every setting of `validate_ip`
(unset, false or true). -/
theorem dataSourceExtipRead_client_failure (P : net.Parsers) (world : http.Transport)
    (now : String) (d : ResourceData) (msg : String)
    (hfail : (getExternalIPFrom world d.resolver d.client_timeout).err = some msg) :
    ∀ v : Option Bool,
      (dataSourceExtipRead P world now { d with validate_ip := v }).1 =
        [⟨diag.Severity.Error, msg, ""⟩] := by
  intro v
  rw [dataSourceExtipRead_eq]
  simp only [hfail]

/-- Witness of C3: the body read of a 200 response ends in `unexpected EOF`,
with `validate_ip` set to true. -/
theorem dataSourceExtipRead_client_failure_witness :
    (dataSourceExtipRead acceptingParsers
      (constTransport (.ok ⟨200, ⟨[], some "unexpected EOF"⟩⟩)) "t"
      { defaultConfig none with validate_ip := some true }).1 =
      [⟨diag.Severity.Error, "unexpected EOF", ""⟩] :=
  dataSourceExtipRead_client_failure acceptingParsers
    (constTransport (.ok ⟨200, ⟨[], some "unexpected EOF"⟩⟩)) "t" (defaultConfig none)
    "unexpected EOF" (by decide) (some true)

/-- C4: if `dataSourceExtipRead` returns an error diagnostic, the resource data
after the call is the resource data before it: neither `ipaddress` nor the id
was set. -/
theorem dataSourceExtipRead_error_publishes_nothing (P : net.Parsers)
    (world : http.Transport) (now : String) (d : ResourceData)
    (herr : diag.HasError (dataSourceExtipRead P world now d).1 = true) :
    (dataSourceExtipRead P world now d).2 = d := by
  rw [dataSourceExtipRead_eq] at herr ⊢
  cases hres : (getExternalIPFrom world d.resolver d.client_timeout).err with
  | some msg => simp only
  | none =>
    rw [hres] at herr
    simp only at herr
    split at herr <;> simp [diag.HasError] at herr

/-- Witness of C4: the body read fails part-way through. -/
theorem dataSourceExtipRead_error_publishes_nothing_witness :
    (dataSourceExtipRead acceptingParsers
      (constTransport (.ok ⟨200, ⟨asciiBytes "127.0", some "unexpected EOF"⟩⟩)) "t"
      (defaultConfig none)).2 = defaultConfig none :=
  dataSourceExtipRead_error_publishes_nothing acceptingParsers
    (constTransport (.ok ⟨200, ⟨asciiBytes "127.0", some "unexpected EOF"⟩⟩)) "t"
    (defaultConfig none) (by decide)

/-- C9: two runs of `dataSourceExtipRead` on the same configuration whose
requests receive the same HTTP outcome return the same diagnostics and publish
the same `ipaddress`; the resource data after the two runs differ at most in
the id, which is the clock reading. -/
theorem dataSourceExtipRead_deterministic (P : net.Parsers) (world1 world2 : http.Transport)
    (now1 now2 : String) (d : ResourceData)
    (hsame : world1 (clientTimeoutDuration d.client_timeout) d.resolver =
      world2 (clientTimeoutDuration d.client_timeout) d.resolver) :
    (dataSourceExtipRead P world1 now1 d).1 = (dataSourceExtipRead P world2 now2 d).1 ∧
    (dataSourceExtipRead P world1 now1 d).2.ipaddress =
      (dataSourceExtipRead P world2 now2 d).2.ipaddress ∧
    { (dataSourceExtipRead P world1 now1 d).2 with id := none } =
      { (dataSourceExtipRead P world2 now2 d).2 with id := none } := by
  have hclient : getExternalIPFrom world1 d.resolver d.client_timeout =
      getExternalIPFrom world2 d.resolver d.client_timeout := by
    simp only [getExternalIPFrom, hsame]
  rw [dataSourceExtipRead_eq, dataSourceExtipRead_eq, hclient]
  cases (getExternalIPFrom world2 d.resolver d.client_timeout).err with
  | some msg => exact ⟨rfl, rfl, rfl⟩
  | none =>
    simp only
    split <;> exact ⟨rfl, rfl, rfl⟩

/-- Witness of C9: two reads of the body `127.0.0.1` at different times. -/
theorem dataSourceExtipRead_deterministic_witness :
    (dataSourceExtipRead acceptingParsers (okTransport (asciiBytes "127.0.0.1\n"))
        "2021-01-01 00:00:00 +0000 UTC" (defaultConfig none)).2.ipaddress =
      (dataSourceExtipRead acceptingParsers (okTransport (asciiBytes "127.0.0.1\n"))
        "2021-01-02 00:00:00 +0000 UTC" (defaultConfig none)).2.ipaddress :=
  (dataSourceExtipRead_deterministic acceptingParsers _ _ _ _ (defaultConfig none) rfl).2.1

/-- C10 (as stated, refuted): `clientTimeout = 2^58` is a non-negative 64-bit
`int`, not zero, and its timeout is zero; `clientTimeout = 9223372036855` is a
non-negative 64-bit `int` and its timeout is negative, not
`9223372036855 * 1000000`. -/
theorem clientTimeoutDuration_wraps :
    (0 : Int) ≤ 2 ^ 58 ∧ (2 : Int) ^ 58 < 2 ^ 63 ∧ (2 : Int) ^ 58 ≠ 0 ∧
    clientTimeoutDuration (2 ^ 58) = 0 ∧
    (0 : Int) ≤ 9223372036855 ∧ (9223372036855 : Int) < 2 ^ 63 ∧
    clientTimeoutDuration 9223372036855 < 0 ∧
    clientTimeoutDuration 9223372036855 ≠ 9223372036855 * 1000000 := by
  decide

/-- C10 (amended): for `0 ≤ clientTimeout ≤ 9223372036854`, the largest
number of milliseconds whose nanosecond count fits in 64 signed bits, the
timeout `getExternalIPFrom` sets on the HTTP client is exactly
`clientTimeout * 1000000` ns; it is zero if and only if `clientTimeout` is
zero, it is never negative, and it is the timeout of the one `Get` made. -/
theorem clientTimeoutDuration_exact (clientTimeout : Int)
    (hlo : 0 ≤ clientTimeout) (hhi : clientTimeout ≤ 9223372036854) :
    clientTimeoutDuration clientTimeout = clientTimeout * 1000000 ∧
    (clientTimeoutDuration clientTimeout = 0 ↔ clientTimeout = 0) ∧
    0 ≤ clientTimeoutDuration clientTimeout ∧
    ∀ (world : http.Transport) (service : String),
      (getExternalIPFrom world service clientTimeout).events.head? =
        some (.Get (clientTimeout * 1000000) service) := by
  have h : clientTimeoutDuration clientTimeout = clientTimeout * 1000000 := by
    unfold clientTimeoutDuration time.Duration.mul time.int64 time.Millisecond
    omega
  refine ⟨h, by rw [h]; omega, by rw [h]; omega, ?_⟩
  intro world service
  unfold getExternalIPFrom
  rw [h]
  simp only
  split
  · rfl
  · split
    · rfl
    · split <;> rfl

/-- Witness of C10 (amended): the default timeout of 1000 ms. -/
theorem clientTimeoutDuration_exact_witness :
    clientTimeoutDuration 1000 = 1000 * 1000000 :=
  (clientTimeoutDuration_exact 1000 (by decide) (by decide)).1

/-- C6 (as stated, refuted): with `validate_ip` unset, a 200 response with an
empty body makes the read succeed and publish the empty string. -/
theorem dataSourceExtipRead_publishes_empty :
    (defaultConfig none).ipaddress = none ∧
    ReadSucceeded (dataSourceExtipRead acceptingParsers (okTransport []) "t"
      (defaultConfig none)) ∧
    (dataSourceExtipRead acceptingParsers (okTransport []) "t"
      (defaultConfig none)).2.ipaddress = some [] := by
  refine ⟨rfl, ⟨?_, ?_⟩, ?_⟩ <;> decide

/-- C7: with `validate_ip` true, whatever the HTTP outcome: if
`dataSourceExtipRead` publishes `ipaddress`, the published value parses as an
IPv4 or IPv6 literal; and if the string the client returned does not parse,
nothing is set, neither `ipaddress` nor the id. -/
theorem dataSourceExtipRead_validated_parses (P : net.Parsers) (world : http.Transport)
    (now : String) (d : ResourceData) (hv : d.validate_ip = some true) :
    (∀ ip, d.ipaddress = none → (dataSourceExtipRead P world now d).2.ipaddress = some ip →
      net.ParseIP P ip ≠ none) ∧
    (net.ParseIP P (getExternalIPFrom world d.resolver d.client_timeout).ip = none →
      (dataSourceExtipRead P world now d).2 = d) := by
  rw [dataSourceExtipRead_eq]
  cases hres : (getExternalIPFrom world d.resolver d.client_timeout).err with
  | some msg =>
    refine ⟨fun ip hfresh hpub => ?_, fun _ => rfl⟩
    simp [hfresh] at hpub
  | none =>
    simp only
    by_cases hp : net.ParseIP P (getExternalIPFrom world d.resolver d.client_timeout).ip = none
    · rw [if_pos ⟨hv, hp⟩]
      refine ⟨fun ip hfresh hpub => ?_, fun _ => rfl⟩
      simp [hfresh] at hpub
    · rw [if_neg (fun h => hp h.2)]
      refine ⟨fun ip _ hpub => ?_, fun h => absurd h hp⟩
      simp only [Option.some.injEq] at hpub
      rw [← hpub]
      exact hp

/-- Witness of C7: the body `127.0.0.1` followed by a newline. -/
theorem dataSourceExtipRead_validated_parses_witness :
    net.ParseIP acceptingParsers (asciiBytes "127.0.0.1") ≠ none :=
  (dataSourceExtipRead_validated_parses acceptingParsers
    (okTransport (asciiBytes "127.0.0.1\n")) "t" (defaultConfig (some true)) rfl).1
    (asciiBytes "127.0.0.1") rfl (by decide)

/-! ## The UTF-8 decoders and the rune-wise trimming functions -/

set_option maxRecDepth 100000 in
open utf8 in
/-- What the table `first` says about a first byte: it is ASCII, or
invalid, or the start of a sequence of two to four bytes whose second byte must
be at least `0x80`. -/
theorem first_cases : ∀ p0 : Byte,
    (first p0.val = as ∧ p0.val < 0x80) ∨
    (first p0.val = xx ∧ 0x80 ≤ p0.val) ∨
    (first p0.val < as ∧ 0xC2 ≤ p0.val ∧ 2 ≤ first p0.val &&& 7 ∧ first p0.val &&& 7 ≤ 4 ∧
      0x80 ≤ (acceptRanges (first p0.val >>> 4)).1) := by
  decide


/-- Indexing the slice `p[i:]`. -/
theorem getD_val_drop (p : GoBytes) (i j : Nat) :
    (p.drop i).getD j 0 = p.getD (i + j) 0 := by
  simp [List.getD_eq_getElem?_getD, List.getElem?_drop]

/-- Indexing the slice `p[:n]` below `n`. -/
theorem getD_val_take (p : GoBytes) (n j : Nat) (h : j < n) :
    (p.take n).getD j 0 = p.getD j 0 := by
  simp [List.getD_eq_getElem?_getD, List.getElem?_take, h]

open utf8 in
/-- The width `utf8.DecodeRune` reports: between one and four bytes, never
more than the slice holds; a width above one needs a first byte of at least
`0xC2`; and when the first byte is not ASCII, neither is the last byte of the
decoded sequence. -/
theorem DecodeRune_width (p : GoBytes) (hp : p ≠ []) :
    1 ≤ (DecodeRune p).2 ∧ (DecodeRune p).2 ≤ p.length ∧ (DecodeRune p).2 ≤ 4 ∧
    (2 ≤ (DecodeRune p).2 → 0x80 ≤ (p.getD 0 0).val) ∧
    (0x80 ≤ (p.getD 0 0).val → 0x80 ≤ (p.getD ((DecodeRune p).2 - 1) 0).val) := by
  have hlen : 1 ≤ p.length := List.length_pos.mpr hp
  have hn : ¬ p.length < 1 := by omega
  rcases first_cases (p.getD 0 0) with ⟨hx, h0⟩ | ⟨hx, h0⟩ | ⟨hx, h0, hsz2, hsz4, hlo⟩
  · have h : (DecodeRune p).2 = 1 := by
      unfold DecodeRune
      simp only [hn, if_false, hx, ge_iff_le, le_refl, if_true]
    rw [h]
    exact ⟨le_refl _, hlen, by omega, by omega, fun h => by omega⟩
  · have h : (DecodeRune p).2 = 1 := by
      have : as ≤ xx := by decide
      unfold DecodeRune
      simp only [hn, if_false, hx, ge_iff_le, this, if_true]
    rw [h]
    exact ⟨le_refl _, hlen, by omega, by omega, fun h => h⟩
  · have hnot : ¬ first (p.getD 0 0).val ≥ as := by omega
    unfold DecodeRune
    simp only [hn, hnot, if_false, locb, hicb]
    split_ifs <;>
      refine ⟨by omega, by omega, by omega, fun _ => by omega, fun _ => ?_⟩ <;>
      simp only [Nat.sub_self, Nat.add_one_sub_one, Nat.reduceSub] <;> omega


/-- The backward scan of `utf8.DecodeLastRune` never moves forward. -/
theorem DecodeLastRune_scan_le (p : GoBytes) (lim : Int) (fuel : Nat) :
    ∀ start : Int, utf8.DecodeLastRune.scan p lim fuel start ≤ start := by
  induction fuel with
  | zero => intro start; simp [utf8.DecodeLastRune.scan]
  | succ fuel ih =>
    intro start
    unfold utf8.DecodeLastRune.scan
    split_ifs
    · exact le_refl _
    · have := ih (start - 1)
      omega
    · exact le_refl _

open utf8 in
/-- The width `utf8.DecodeLastRune` reports: at least one byte, never more than
the slice holds; when the last byte is not ASCII, the byte the reported
sequence starts at is not ASCII either. -/
theorem DecodeLastRune_width (p : GoBytes) (hp : p ≠ []) :
    1 ≤ (DecodeLastRune p).2 ∧ (DecodeLastRune p).2 ≤ p.length ∧
    (0x80 ≤ (p.getD (p.length - 1) 0).val →
      0x80 ≤ (p.getD (p.length - (DecodeLastRune p).2) 0).val) := by
  have hlen : 1 ≤ p.length := List.length_pos.mpr hp
  have hend : ¬ ((p.length : Int) = 0) := by omega
  have hidx : ((p.length : Int) - 1).toNat = p.length - 1 := by omega
  unfold DecodeLastRune
  simp only [hend, if_false, hidx, RuneSelf]
  by_cases hr : (p.getD (p.length - 1) 0).val < 0x80
  · simp only [hr, if_true]
    exact ⟨le_refl _, hlen, fun h => h⟩
  · simp only [hr, if_false]
    generalize hk : DecodeLastRune.scan p
      (if (p.length : Int) - (UTFMax : Int) < 0 then 0 else (p.length : Int) - (UTFMax : Int))
      UTFMax ((p.length : Int) - 1 - 1) = k
    have hkle : k ≤ (p.length : Int) - 1 - 1 := hk ▸ DecodeLastRune_scan_le p _ _ _
    generalize hst : (if k < 0 then (0 : Int) else k) = st
    have hst0 : 0 ≤ st := by rw [← hst]; split_ifs <;> omega
    have hst1 : st ≤ (p.length : Int) - 1 := by rw [← hst]; split_ifs <;> omega
    have htl : (p.length : Int).toNat = p.length := by omega
    rw [htl]
    have hq : (p.take p.length).drop st.toNat ≠ [] := by
      intro h
      have := congrArg List.length h
      simp at this
      omega
    obtain ⟨h1, h2, -, h4, -⟩ := DecodeRune_width _ hq
    have hqlen : ((p.take p.length).drop st.toNat).length = p.length - st.toNat := by simp
    rw [hqlen] at h2
    have hq0 : ((p.take p.length).drop st.toNat).getD 0 0 = p.getD st.toNat 0 := by
      rw [List.take_length, getD_val_drop, Nat.add_zero]
    rw [hq0] at h4
    split_ifs with hne
    · exact ⟨le_refl _, hlen, fun h => h⟩
    · refine ⟨h1, by omega, fun h => ?_⟩
      have hsz : st + ((DecodeRune ((p.take p.length).drop st.toNat)).2 : Int) = p.length := by
        omega
      by_cases h2w : 2 ≤ (DecodeRune ((p.take p.length).drop st.toNat)).2
      · have hidx2 : p.length - (DecodeRune ((p.take p.length).drop st.toNat)).2 = st.toNat := by
          omega
        rw [hidx2]
        exact h4 h2w
      · have hidx2 : p.length - (DecodeRune ((p.take p.length).drop st.toNat)).2 =
            p.length - 1 := by omega
        rw [hidx2]
        exact h

set_option maxRecDepth 100000 in
/-- On ASCII bytes `unicode.IsSpace` and the table `asciiSpace` both say
exactly what the contract calls ASCII whitespace. -/
theorem ascii_space_agree : ∀ b : Byte,
    (bytes.asciiSpace b.val = 0 ↔ isASCIIWhitespace b = false) ∧
    (b.val < 0x80 → unicode.IsSpace b.val = isASCIIWhitespace b) ∧
    (0x80 ≤ b.val → isASCIIWhitespace b = false) := by
  decide

/-- Where `indexFunc` stops: at an index inside `s`, not before `start`, and
if the byte there is ASCII then `f` takes the value `truth` on it. -/
theorem indexFunc_loop_spec (s : GoBytes) (f : Rune → Bool) (truth : Bool) (fuel : Nat) :
    ∀ start : Nat, bytes.indexFunc.loop s f truth fuel start ≠ -1 →
      ∃ k : Nat, bytes.indexFunc.loop s f truth fuel start = (k : Int) ∧ start ≤ k ∧
        k < s.length ∧ ((s.getD k 0).val < 0x80 → f (s.getD k 0).val = truth) := by
  induction fuel with
  | zero => intro start h; simp [bytes.indexFunc.loop] at h
  | succ fuel ih =>
    intro start h
    unfold bytes.indexFunc.loop at h ⊢
    by_cases hlt : start < s.length
    · simp only [hlt, if_true] at h ⊢
      split_ifs at h ⊢ with hc hf hf
      · exact ⟨start, rfl, le_refl _, hlt, fun hb => by simp only [utf8.RuneSelf] at hc; omega⟩
      · obtain ⟨k, hk, hle, hklt, hkf⟩ := ih _ h
        exact ⟨k, hk, by omega, hklt, hkf⟩
      · exact ⟨start, rfl, le_refl _, hlt, fun _ => by simpa using hf⟩
      · obtain ⟨k, hk, hle, hklt, hkf⟩ := ih _ h
        exact ⟨k, hk, by omega, hklt, hkf⟩
    · simp [hlt] at h

/-- Where `lastIndexFunc` stops: at an index below `i`, and if the byte there
is ASCII then `f` takes the value `truth` on it. -/
theorem lastIndexFunc_loop_spec (s : GoBytes) (f : Rune → Bool) (truth : Bool) (fuel : Nat) :
    ∀ i : Int, 0 ≤ i → i ≤ s.length → bytes.lastIndexFunc.loop s f truth fuel i ≠ -1 →
      ∃ k : Nat, bytes.lastIndexFunc.loop s f truth fuel i = (k : Int) ∧ (k : Int) < i ∧
        ((s.getD k 0).val < 0x80 → f (s.getD k 0).val = truth) := by
  induction fuel with
  | zero => intro i _ _ h; simp [bytes.lastIndexFunc.loop] at h
  | succ fuel ih =>
    intro i hi0 hile h
    unfold bytes.lastIndexFunc.loop at h ⊢
    by_cases hpos : i > 0
    · simp only [hpos, if_true] at h ⊢
      have hidx : (i - 1).toNat = i.toNat - 1 := by omega
      by_cases hc : (s.getD (i - 1).toNat 0).val ≥ utf8.RuneSelf
      · simp only [hc, if_true] at h ⊢
        have htake : s.take i.toNat ≠ [] := by
          intro hnil
          have := congrArg List.length hnil
          rw [List.length_take, List.length_nil] at this
          omega
        have htl : (s.take i.toNat).length = i.toNat := by
          simp only [List.length_take]; omega
        obtain ⟨w1, w2, w3⟩ := DecodeLastRune_width _ htake
        rw [htl] at w2 w3
        rw [getD_val_take s i.toNat (i.toNat - 1) (by omega),
          getD_val_take s i.toNat (i.toNat - (utf8.DecodeLastRune (s.take i.toNat)).2) (by omega)] at w3
        rw [hidx] at hc
        have hstart := w3 hc
        generalize (utf8.DecodeLastRune (s.take i.toNat)) = rs at h w1 w2 hstart ⊢
        have hnat : i - (rs.2 : Int) = ((i.toNat - rs.2 : Nat) : Int) := by omega
        split_ifs at h ⊢ with hf
        · refine ⟨i.toNat - rs.2, hnat, by omega, fun hb => ?_⟩
          omega
        · obtain ⟨k, hk, hklt, hkf⟩ := ih _ (by omega) (by omega) h
          exact ⟨k, hk, by omega, hkf⟩
      · simp only [hc, if_false] at h ⊢
        have hnat : i - ((1 : Nat) : Int) = ((i.toNat - 1 : Nat) : Int) := by omega
        split_ifs at h ⊢ with hf
        · refine ⟨i.toNat - 1, hnat, by omega, fun _ => ?_⟩
          rw [hidx] at hf
          simpa using hf
        · obtain ⟨k, hk, hklt, hkf⟩ := ih _ (by omega) (by omega) h
          exact ⟨k, hk, by omega, hkf⟩
    · simp [hpos] at h

/-- A byte on which `unicode.IsSpace` is false when it is ASCII is not ASCII
whitespace. -/
theorem not_whitespace_of_not_IsSpace (b : Byte)
    (h : b.val < 0x80 → unicode.IsSpace b.val = false) : isASCIIWhitespace b = false := by
  obtain ⟨-, hlo, hhi⟩ := ascii_space_agree b
  by_cases hb : b.val < 0x80
  · rw [← hlo hb]; exact h hb
  · exact hhi (by omega)

/-- Reading a byte that is present. -/
theorem getD_of_getElem? (s : GoBytes) (k : Nat) (b : Byte) (h : s[k]? = some b) :
    s.getD k 0 = b := by
  simp [List.getD_eq_getElem?_getD, h]

/-- The function `bytes.TrimLeftFunc` returns a suffix of its argument. -/
theorem TrimLeftFunc_suffix (s : GoBytes) (f : Rune → Bool) : bytes.TrimLeftFunc s f <:+ s := by
  unfold bytes.TrimLeftFunc
  simp only
  split_ifs
  · exact List.nil_suffix
  · exact List.drop_suffix _ _

/-- The function `bytes.TrimRightFunc` returns a prefix of its argument. -/
theorem TrimRightFunc_initial (s : GoBytes) (f : Rune → Bool) : bytes.TrimRightFunc s f <+: s := by
  unfold bytes.TrimRightFunc
  exact List.take_prefix _ _

/-- The first byte of `bytes.TrimLeftFunc(s, unicode.IsSpace)` is not ASCII
whitespace. -/
theorem TrimLeftFunc_head (s : GoBytes) (b : Byte)
    (h : (bytes.TrimLeftFunc s unicode.IsSpace).head? = some b) :
    isASCIIWhitespace b = false := by
  unfold bytes.TrimLeftFunc at h
  simp only at h
  by_cases hi : bytes.indexFunc s unicode.IsSpace false = -1
  · simp [hi] at h
  · simp only [hi, if_false] at h
    obtain ⟨k, hk, -, hklt, hkf⟩ := indexFunc_loop_spec s unicode.IsSpace false s.length 0 hi
    have hk2 : bytes.indexFunc s unicode.IsSpace false = (k : Int) := hk
    rw [hk2, Int.toNat_ofNat, List.head?_drop] at h
    rw [getD_of_getElem? s k b h] at hkf
    exact not_whitespace_of_not_IsSpace b hkf

/-- The last byte of `bytes.TrimRightFunc(s, unicode.IsSpace)` is not ASCII
whitespace. -/
theorem TrimRightFunc_getLast (s : GoBytes) (b : Byte)
    (h : (bytes.TrimRightFunc s unicode.IsSpace).getLast? = some b) :
    isASCIIWhitespace b = false := by
  unfold bytes.TrimRightFunc at h
  simp only at h
  by_cases hi : bytes.lastIndexFunc s unicode.IsSpace false = -1
  · simp [hi] at h
  · obtain ⟨k, hk, hklt, hkf⟩ :=
      lastIndexFunc_loop_spec s unicode.IsSpace false s.length s.length (by omega) (le_refl _) hi
    have hk2 : bytes.lastIndexFunc s unicode.IsSpace false = (k : Int) := hk
    have hklt2 : k < s.length := by omega
    rw [hk2] at h
    simp only [Int.toNat_ofNat] at h
    by_cases hc : (s.getD k 0).val ≥ utf8.RuneSelf
    · have hcond : (k : Int) ≥ 0 ∧ (s.getD k 0).val ≥ utf8.RuneSelf := ⟨by omega, hc⟩
      rw [if_pos hcond] at h
      have hdrop : s.drop k ≠ [] := by
        intro hnil
        have := congrArg List.length hnil
        rw [List.length_drop, List.length_nil] at this
        omega
      obtain ⟨w1, w2, -, -, w5⟩ := DecodeRune_width _ hdrop
      rw [List.length_drop] at w2
      rw [getD_val_drop, getD_val_drop, Nat.add_zero] at w5
      have hlast := w5 hc
      generalize (utf8.DecodeRune (s.drop k)).2 = wid at h w1 w2 hlast
      have hnat : ((k : Int) + (wid : Int)).toNat = k + wid := by omega
      rw [hnat, List.getLast?_take] at h
      have hne : ¬ (k + wid = 0) := by omega
      have hget : s[k + wid - 1]? = some (s.getD (k + (wid - 1)) 0) := by
        have hidx : k + wid - 1 = k + (wid - 1) := by omega
        rw [hidx, List.getD_eq_getElem?_getD]
        have hlt : k + (wid - 1) < s.length := by omega
        rw [List.getElem?_eq_getElem hlt]
        rfl
      rw [if_neg hne, hget] at h
      simp only [Option.or_some, Option.some.injEq] at h
      rw [← h]
      exact (ascii_space_agree _).2.2 hlast
    · have hcond : ¬ ((k : Int) ≥ 0 ∧ (s.getD k 0).val ≥ utf8.RuneSelf) := fun hh => hc hh.2
      rw [if_neg hcond] at h
      have hnat : ((k : Int) + 1).toNat = k + 1 := by omega
      rw [hnat, List.getLast?_take] at h
      have hget : s[k + 1 - 1]? = some (s.getD k 0) := by
        rw [Nat.add_sub_cancel, List.getD_eq_getElem?_getD, List.getElem?_eq_getElem hklt2]
        rfl
      rw [if_neg (by omega), hget] at h
      simp only [Option.or_some, Option.some.injEq] at h
      rw [← h]
      apply not_whitespace_of_not_IsSpace
      intro hb
      exact hkf hb

/-- Neither end of `bytes.TrimFunc(s, unicode.IsSpace)` is ASCII whitespace, and
the result is a contiguous part of `s`. -/
theorem TrimFunc_ends (s : GoBytes) :
    (∀ b, (bytes.TrimFunc s unicode.IsSpace).head? = some b → isASCIIWhitespace b = false) ∧
    (∀ b, (bytes.TrimFunc s unicode.IsSpace).getLast? = some b →
      isASCIIWhitespace b = false) ∧
    bytes.TrimFunc s unicode.IsSpace <:+: s := by
  refine ⟨fun b h => ?_, fun b h => TrimRightFunc_getLast _ b h, ?_⟩
  · unfold bytes.TrimFunc at h
    obtain ⟨t, ht⟩ := TrimRightFunc_initial (bytes.TrimLeftFunc s unicode.IsSpace) unicode.IsSpace
    apply TrimLeftFunc_head s b
    rw [← ht]
    cases hres : bytes.TrimRightFunc (bytes.TrimLeftFunc s unicode.IsSpace) unicode.IsSpace with
    | nil => rw [hres] at h; simp at h
    | cons x xs => rw [hres] at h; simpa using h
  · unfold bytes.TrimFunc
    exact (TrimRightFunc_initial _ _).isInfix.trans (TrimLeftFunc_suffix _ _).isInfix

/-- The first loop of `bytes.TrimSpace`, given fuel for the bytes still ahead:
it skips the leading ASCII whitespace, then either stops at an ASCII byte or
hands the rest to `TrimFunc`. -/
theorem scanStart_spec (s : GoBytes) (fuel : Nat) : ∀ start : Nat,
    s.length ≤ fuel + start → start ≤ s.length →
    bytes.TrimSpace.scanStart s fuel start =
      match (s.drop start).dropWhile isASCIIWhitespace with
      | [] => .ok s.length
      | c :: rest =>
        if c.val ≥ utf8.RuneSelf then .error (bytes.TrimFunc (c :: rest) unicode.IsSpace)
        else .ok (s.length - (c :: rest).length) := by
  induction fuel with
  | zero =>
    intro start h1 h2
    have : start = s.length := by omega
    subst this
    simp [bytes.TrimSpace.scanStart]
  | succ fuel ih =>
    intro start h1 h2
    unfold bytes.TrimSpace.scanStart
    by_cases hlt : start < s.length
    · simp only [hlt, if_true]
      have hdrop : s.drop start = s[start] :: s.drop (start + 1) := List.drop_eq_getElem_cons hlt
      have hget : s.getD start 0 = s[start] := List.getD_eq_getElem _ _ hlt
      rw [hget, hdrop]
      obtain ⟨hsp, -, hhi⟩ := ascii_space_agree s[start]
      by_cases hc : (s[start]).val ≥ utf8.RuneSelf
      · have hws : isASCIIWhitespace s[start] = false := hhi hc
        simp only [hc, if_true]
        rw [List.dropWhile_cons_of_neg (by simp [hws])]
        simp only [hc, if_true]
      · simp only [hc, if_false]
        by_cases hz : bytes.asciiSpace (s[start]).val = 0
        · have hws : isASCIIWhitespace s[start] = false := hsp.mp hz
          simp only [hz, if_true]
          rw [List.dropWhile_cons_of_neg (by simp [hws])]
          simp only [hc, if_false, ← hdrop, List.length_drop]
          congr 1
          omega
        · have hws : isASCIIWhitespace s[start] = true := by
            cases hw : isASCIIWhitespace s[start]
            · exact absurd (hsp.mpr hw) hz
            · rfl
          simp only [hz, if_false]
          rw [List.dropWhile_cons_of_pos hws]
          exact ih (start + 1) (by omega) (by omega)
    · have : start = s.length := by omega
      subst this
      simp

/-- The second loop of `bytes.TrimSpace`, given fuel for the bytes between
`start` and `stop`: it skips the trailing ASCII whitespace of `s[start:stop]`,
then either stops after an ASCII byte or hands what is left to `TrimFunc`. -/
theorem scanStop_spec (s : GoBytes) (start : Nat) (fuel : Nat) : ∀ stop : Nat,
    start ≤ stop → stop ≤ s.length → stop ≤ fuel + start →
    bytes.TrimSpace.scanStop s start fuel stop =
      match (((s.take stop).drop start).rdropWhile isASCIIWhitespace).getLast? with
      | none => .ok start
      | some c =>
        if c.val ≥ utf8.RuneSelf then
          .error (bytes.TrimFunc (((s.take stop).drop start).rdropWhile isASCIIWhitespace)
            unicode.IsSpace)
        else .ok (start + (((s.take stop).drop start).rdropWhile isASCIIWhitespace).length) := by
  induction fuel with
  | zero =>
    intro stop h1 h2 h3
    have : stop = start := by omega
    subst this
    have hnil : (s.take stop).drop stop = [] :=
      List.drop_eq_nil_of_le (by rw [List.length_take]; omega)
    simp [bytes.TrimSpace.scanStop, hnil]
  | succ fuel ih =>
    intro stop h1 h2 h3
    unfold bytes.TrimSpace.scanStop
    by_cases hgt : stop > start
    · simp only [hgt, if_true]
      have hlt : stop - 1 < s.length := by omega
      have hget : s.getD (stop - 1) 0 = s[stop - 1] := List.getD_eq_getElem _ _ hlt
      have hslice : (s.take stop).drop start =
          (s.take (stop - 1)).drop start ++ [s[stop - 1]] := by
        have hstop : stop = (stop - 1) + 1 := by omega
        conv_lhs => rw [hstop, List.take_succ, List.getElem?_eq_getElem hlt]
        simp only [Option.toList]
        rw [List.drop_append_of_le_length (by rw [List.length_take]; omega)]
      rw [hget, hslice]
      obtain ⟨hsp, -, hhi⟩ := ascii_space_agree s[stop - 1]
      by_cases hc : (s[stop - 1]).val ≥ utf8.RuneSelf
      · have hws : isASCIIWhitespace s[stop - 1] = false := hhi hc
        simp only [hc, if_true]
        rw [List.rdropWhile_concat_neg _ _ _ (by simp [hws])]
        simp only [List.getLast?_concat, hc, if_true]
      · simp only [hc, if_false]
        by_cases hz : bytes.asciiSpace (s[stop - 1]).val = 0
        · have hws : isASCIIWhitespace s[stop - 1] = false := hsp.mp hz
          simp only [hz, if_true]
          rw [List.rdropWhile_concat_neg _ _ _ (by simp [hws])]
          simp only [List.getLast?_concat, hc, if_false, List.length_append, List.length_drop,
            List.length_take, List.length_singleton]
          congr 1
          omega
        · have hws : isASCIIWhitespace s[stop - 1] = true := by
            cases hw : isASCIIWhitespace s[stop - 1]
            · exact absurd (hsp.mpr hw) hz
            · rfl
          simp only [hz, if_false]
          rw [List.rdropWhile_concat_pos _ _ _ hws]
          exact ih (stop - 1) (by omega) (by omega) (by omega)
    · have : stop = start := by omega
      subst this
      have hnil : (s.take stop).drop stop = [] :=
        List.drop_eq_nil_of_le (by rw [List.length_take]; omega)
      simp [hnil]

/-- A list whose first element fails `p` keeps that element under
`rdropWhile p`. -/
theorem rdropWhile_cons_ne_nil {α : Type} (p : α → Bool) (c : α) (rest : List α)
    (hc : p c = false) :
    ∃ rest2, (c :: rest).rdropWhile p = c :: rest2 := by
  induction rest using List.reverseRecOn with
  | nil => exact ⟨[], by rw [List.rdropWhile_singleton]; simp [hc]⟩
  | append_singleton l x ih =>
    rw [← List.cons_append]
    by_cases hx : p x = true
    · rw [List.rdropWhile_concat_pos _ _ _ hx]
      exact ih
    · rw [List.rdropWhile_concat_neg _ _ _ hx]
      exact ⟨l ++ [x], rfl⟩

/-- The function `bytes.TrimSpace` in terms of the ASCII-trimmed slice: when
that slice begins or ends with a non-ASCII byte the rune-wise `TrimFunc` takes
over, otherwise the ASCII-trimmed slice is the result. -/
theorem TrimSpace_eq (s : GoBytes) :
    bytes.TrimSpace s =
      match s.dropWhile isASCIIWhitespace with
      | [] => []
      | c :: rest =>
        if c.val ≥ utf8.RuneSelf then bytes.TrimFunc (c :: rest) unicode.IsSpace
        else
          match (trimASCIIWhitespace s).getLast? with
          | none => []
          | some e =>
            if e.val ≥ utf8.RuneSelf then
              bytes.TrimFunc (trimASCIIWhitespace s) unicode.IsSpace
            else trimASCIIWhitespace s := by
  unfold bytes.TrimSpace
  rw [scanStart_spec s s.length 0 (by omega) (by omega), List.drop_zero]
  cases hu : s.dropWhile isASCIIWhitespace with
  | nil =>
    simp only
    rw [scanStop_spec s s.length s.length s.length (le_refl _) (le_refl _) (by omega)]
    have hnil : (s.take s.length).drop s.length = [] :=
      List.drop_eq_nil_of_le (by rw [List.length_take]; omega)
    simp [hnil]
  | cons c rest =>
    simp only
    by_cases hc : c.val ≥ utf8.RuneSelf
    · simp only [hc, if_true]
    · simp only [hc, if_false]
      have hsuf : s.dropWhile isASCIIWhitespace <:+ s := List.dropWhile_suffix _
      rw [hu] at hsuf
      have hlen : (c :: rest).length ≤ s.length := hsuf.length_le
      have hdrop : s.drop (s.length - (c :: rest).length) = c :: rest := by
        obtain ⟨pre, hpre⟩ := hsuf
        have h1 : s.length - (c :: rest).length = pre.length := by
          rw [← hpre, List.length_append]; omega
        rw [h1, ← hpre, List.drop_left]
      rw [scanStop_spec s _ s.length s.length (by omega) (le_refl _) (by omega)]
      have hslice : (s.take s.length).drop (s.length - (c :: rest).length) = c :: rest := by
        rw [List.take_length, hdrop]
      have htrim : trimASCIIWhitespace s = (c :: rest).rdropWhile isASCIIWhitespace := by
        unfold trimASCIIWhitespace
        rw [hu]
      rw [hslice, ← htrim]
      cases hlast : (trimASCIIWhitespace s).getLast? with
      | none => simp
      | some e =>
        simp only
        by_cases he : e.val ≥ utf8.RuneSelf
        · simp only [he, if_true]
        · simp only [he, if_false]
          have hpos : 0 < (trimASCIIWhitespace s).length := by
            cases ht : trimASCIIWhitespace s with
            | nil => rw [ht] at hlast; simp at hlast
            | cons x xs => simp
          have hne : ¬ (s.length - (c :: rest).length =
              s.length - (c :: rest).length + (trimASCIIWhitespace s).length) := by omega
          rw [if_neg hne, List.drop_take]
          rw [hdrop, Nat.add_sub_cancel_left]
          have hpre : trimASCIIWhitespace s <+: c :: rest := by
            rw [htrim]; exact List.rdropWhile_prefix _ _
          exact (List.prefix_iff_eq_take.mp hpre).symm

/-- A list that ends with an element failing `p` survives, as a prefix, the
`rdropWhile p` of any extension of it. -/
theorem prefix_rdropWhile_append {α : Type} (p : α → Bool) (a : List α) (x : α)
    (hx : p x = false) (z : List α) :
    a ++ [x] <+: ((a ++ [x]) ++ z).rdropWhile p := by
  induction z using List.reverseRecOn with
  | nil =>
    rw [List.append_nil, List.rdropWhile_concat_neg _ _ _ (by simp [hx])]
  | append_singleton l y ih =>
    rw [← List.append_assoc]
    by_cases hy : p y = true
    · rw [List.rdropWhile_concat_pos _ _ _ hy]
      exact ih
    · rw [List.rdropWhile_concat_neg _ _ _ hy, List.append_assoc]
      exact List.prefix_append _ _

/-- Neither end of `bytes.TrimSpace(s)` is ASCII whitespace, whatever the
bytes of `s`. -/
theorem TrimSpace_ends (s : GoBytes) :
    (∀ b, (bytes.TrimSpace s).head? = some b → isASCIIWhitespace b = false) ∧
    (∀ b, (bytes.TrimSpace s).getLast? = some b → isASCIIWhitespace b = false) := by
  rw [TrimSpace_eq]
  cases hu : s.dropWhile isASCIIWhitespace with
  | nil => simp
  | cons c rest =>
    simp only
    have hcws : isASCIIWhitespace c = false := by
      have := List.head?_dropWhile_not isASCIIWhitespace s
      rw [hu] at this
      simpa using this
    split_ifs with hc
    · exact ⟨(TrimFunc_ends _).1, (TrimFunc_ends _).2.1⟩
    · have htrim : trimASCIIWhitespace s = (c :: rest).rdropWhile isASCIIWhitespace := by
        unfold trimASCIIWhitespace
        rw [hu]
      cases hlast : (trimASCIIWhitespace s).getLast? with
      | none => simp
      | some e =>
        simp only
        split_ifs with he
        · exact ⟨(TrimFunc_ends _).1, (TrimFunc_ends _).2.1⟩
        · obtain ⟨rest2, hr2⟩ := rdropWhile_cons_ne_nil isASCIIWhitespace c rest hcws
          refine ⟨fun b hb => ?_, fun b hb => ?_⟩
          · rw [htrim, hr2] at hb
            simp only [List.head?_cons, Option.some.injEq] at hb
            rw [← hb]
            exact hcws
          · have hne : (c :: rest).rdropWhile isASCIIWhitespace ≠ [] := by
              rw [hr2]; exact List.cons_ne_nil _ _
            have hnot := List.rdropWhile_last_not isASCIIWhitespace (c :: rest) hne
            rw [htrim, List.getLast?_eq_getLast _ hne] at hb
            simp only [Option.some.injEq] at hb
            rw [← hb]
            simpa using hnot

/-- When the ASCII-trimmed slice is empty or begins and ends with an ASCII
byte, `bytes.TrimSpace(s)` is that slice. -/
theorem TrimSpace_of_asciiAtBothEnds (s : GoBytes) (h : asciiAtBothEnds s = true) :
    bytes.TrimSpace s = trimASCIIWhitespace s := by
  rw [TrimSpace_eq]
  unfold asciiAtBothEnds at h
  rw [Bool.and_eq_true] at h
  obtain ⟨hhead, hlast⟩ := h
  cases hu : s.dropWhile isASCIIWhitespace with
  | nil =>
    simp only
    unfold trimASCIIWhitespace
    rw [hu, List.rdropWhile_nil]
  | cons c rest =>
    simp only
    have hcws : isASCIIWhitespace c = false := by
      have := List.head?_dropWhile_not isASCIIWhitespace s
      rw [hu] at this
      simpa using this
    have htrim : trimASCIIWhitespace s = (c :: rest).rdropWhile isASCIIWhitespace := by
      unfold trimASCIIWhitespace
      rw [hu]
    obtain ⟨rest2, hr2⟩ := rdropWhile_cons_ne_nil isASCIIWhitespace c rest hcws
    rw [htrim, hr2] at hhead
    simp only [List.head?_cons, decide_eq_true_eq] at hhead
    have hc : ¬ c.val ≥ utf8.RuneSelf := by simp only [utf8.RuneSelf]; omega
    rw [if_neg hc]
    cases hl : (trimASCIIWhitespace s).getLast? with
    | none =>
      rw [htrim, hr2] at hl
      simp at hl
    | some e =>
      rw [hl] at hlast
      simp only [decide_eq_true_eq] at hlast
      have he : ¬ e.val ≥ utf8.RuneSelf := by simp only [utf8.RuneSelf]; omega
      simp only [he, if_false]

/-- The function `bytes.TrimSpace` returns a contiguous part of the
ASCII-trimmed slice: it never keeps leading or trailing ASCII whitespace and
removes bytes only at the two ends. -/
theorem TrimSpace_infix_trimASCIIWhitespace (s : GoBytes) :
    bytes.TrimSpace s <:+: trimASCIIWhitespace s := by
  rw [TrimSpace_eq]
  cases hu : s.dropWhile isASCIIWhitespace with
  | nil => exact List.nil_infix
  | cons c rest =>
    simp only
    have htrim : trimASCIIWhitespace s = (c :: rest).rdropWhile isASCIIWhitespace := by
      unfold trimASCIIWhitespace
      rw [hu]
    split_ifs with hc
    · obtain ⟨-, hlastws, hinf⟩ := TrimFunc_ends (c :: rest)
      rw [htrim]
      generalize bytes.TrimFunc (c :: rest) unicode.IsSpace = T at hlastws hinf ⊢
      rcases List.eq_nil_or_concat T with hnil | ⟨r, x, hrx⟩
      · rw [hnil]; exact List.nil_infix
      · rw [List.concat_eq_append] at hrx
        subst hrx
        have hx : isASCIIWhitespace x = false := hlastws x (List.getLast?_concat _)
        obtain ⟨a, z, haz⟩ := hinf
        have hpre := prefix_rdropWhile_append isASCIIWhitespace (a ++ r) x hx z
        have hassoc : (a ++ r) ++ [x] = a ++ (r ++ [x]) := List.append_assoc _ _ _
        rw [hassoc, haz] at hpre
        have hsuf : r ++ [x] <:+ a ++ (r ++ [x]) := List.suffix_append _ _
        exact hsuf.isInfix.trans hpre.isInfix
    · cases hlast : (trimASCIIWhitespace s).getLast? with
      | none => exact List.nil_infix
      | some e =>
        simp only
        split_ifs with he
        · exact (TrimFunc_ends _).2.2
        · exact List.infix_refl _

/-- A body all of whose bytes are ASCII has ASCII bytes at both ends of its
ASCII-trimmed slice. -/
theorem asciiAtBothEnds_of_all_ascii (body : GoBytes) (h : ∀ b ∈ body, b.val < 0x80) :
    asciiAtBothEnds body = true := by
  have hsub : ∀ b ∈ trimASCIIWhitespace body, b.val < 0x80 := by
    intro b hb
    apply h
    unfold trimASCIIWhitespace at hb
    exact (List.dropWhile_suffix _).subset ((List.rdropWhile_prefix _ _).subset hb)
  unfold asciiAtBothEnds
  rw [Bool.and_eq_true]
  constructor
  · cases hh : (trimASCIIWhitespace body).head? with
    | none => rfl
    | some c => exact decide_eq_true (hsub c (List.mem_of_mem_head? hh))
  · cases hl : (trimASCIIWhitespace body).getLast? with
    | none => rfl
    | some c => exact decide_eq_true (hsub c (List.mem_of_getLast?_eq_some hl))

/-! ## What the read procedure publishes -/

/-- What a read publishes: the trimmed body of a 200 response that was read to
the end, and no diagnostic with it. -/
theorem dataSourceExtipRead_published (P : net.Parsers) (world : http.Transport)
    (now : String) (d : ResourceData) (ip : GoBytes) (hfresh : d.ipaddress = none)
    (hpub : (dataSourceExtipRead P world now d).2.ipaddress = some ip) :
    ∃ body, world (clientTimeoutDuration d.client_timeout) d.resolver =
        .ok ⟨200, ⟨body, none⟩⟩ ∧ ip = bytes.TrimSpace body ∧
      (dataSourceExtipRead P world now d).1 = [] := by
  rw [dataSourceExtipRead_eq] at hpub ⊢
  cases hres : (getExternalIPFrom world d.resolver d.client_timeout).err with
  | some msg => rw [hres] at hpub; simp [hfresh] at hpub
  | none =>
    obtain ⟨body, hbody, hip⟩ := getExternalIPFrom_ok world d.resolver d.client_timeout hres
    rw [hres] at hpub
    simp only at hpub ⊢
    split_ifs at hpub ⊢ with hval
    · simp [hfresh] at hpub
    · simp only [Option.some.injEq] at hpub
      exact ⟨body, hbody, by rw [← hpub, hip], rfl⟩

/-- C8: for every response body, valid UTF-8 or not, if `dataSourceExtipRead`
publishes `ipaddress` then the published value neither starts nor ends with an
ASCII whitespace character (space, tab, LF, VT, FF, CR). -/
theorem dataSourceExtipRead_published_no_outer_whitespace (P : net.Parsers)
    (world : http.Transport) (now : String) (d : ResourceData) (ip : GoBytes)
    (hfresh : d.ipaddress = none)
    (hpub : (dataSourceExtipRead P world now d).2.ipaddress = some ip) :
    (∀ b, ip.head? = some b → isASCIIWhitespace b = false) ∧
    (∀ b, ip.getLast? = some b → isASCIIWhitespace b = false) := by
  obtain ⟨body, -, hip, -⟩ := dataSourceExtipRead_published P world now d ip hfresh hpub
  rw [hip]
  exact TrimSpace_ends body

/-- Witness of C8: a body with whitespace around an invalid UTF-8 byte. -/
theorem dataSourceExtipRead_published_no_outer_whitespace_witness :
    (∀ b, ([0xFF, 0x20, 0x31] : GoBytes).head? = some b → isASCIIWhitespace b = false) ∧
    (∀ b, ([0xFF, 0x20, 0x31] : GoBytes).getLast? = some b → isASCIIWhitespace b = false) :=
  dataSourceExtipRead_published_no_outer_whitespace acceptingParsers
    (okTransport [0x20, 0xFF, 0x20, 0x31, 0x0A]) "t" (defaultConfig none)
    [0xFF, 0x20, 0x31] rfl (by decide)

/-- C5 (as stated, refuted): the body is U+00A0 (bytes `C2 A0`) followed by
`1.2.3.4`.  It holds no leading or trailing ASCII whitespace, so removing
exactly that leaves it unchanged; the read succeeds and publishes `1.2.3.4`,
without the two leading bytes. -/
theorem dataSourceExtipRead_strips_unicode_space :
    trimASCIIWhitespace ([0xC2, 0xA0] ++ asciiBytes "1.2.3.4") =
      [0xC2, 0xA0] ++ asciiBytes "1.2.3.4" ∧
    ReadSucceeded (dataSourceExtipRead acceptingParsers
      (okTransport ([0xC2, 0xA0] ++ asciiBytes "1.2.3.4")) "t" (defaultConfig none)) ∧
    (dataSourceExtipRead acceptingParsers
      (okTransport ([0xC2, 0xA0] ++ asciiBytes "1.2.3.4")) "t"
      (defaultConfig none)).2.ipaddress = some (asciiBytes "1.2.3.4") ∧
    asciiBytes "1.2.3.4" ≠ trimASCIIWhitespace ([0xC2, 0xA0] ++ asciiBytes "1.2.3.4") := by
  refine ⟨by decide, ⟨by decide, by decide⟩, by decide, by decide⟩

/-- C5 (amended): for every response body, when the read succeeds the
published `ipaddress` is `bytes.TrimSpace` of the body, a contiguous part of
the body with its leading and trailing ASCII whitespace removed; and whenever
that ASCII-trimmed body is empty or begins and ends with an ASCII byte (so for
every all-ASCII body), the published `ipaddress` is exactly the body with its
leading and trailing ASCII whitespace removed and nothing else removed. -/
theorem dataSourceExtipRead_publishes_trimmed_body (P : net.Parsers)
    (world : http.Transport) (now : String) (d : ResourceData) (rsp : http.Response)
    (hget : world (clientTimeoutDuration d.client_timeout) d.resolver = .ok rsp)
    (hfresh : d.ipaddress = none)
    (hok : ReadSucceeded (dataSourceExtipRead P world now d)) :
    (dataSourceExtipRead P world now d).2.ipaddress = some (bytes.TrimSpace rsp.Body.data) ∧
    bytes.TrimSpace rsp.Body.data <:+: trimASCIIWhitespace rsp.Body.data ∧
    (asciiAtBothEnds rsp.Body.data = true →
      (dataSourceExtipRead P world now d).2.ipaddress =
        some (trimASCIIWhitespace rsp.Body.data)) ∧
    ((∀ b ∈ rsp.Body.data, b.val < 0x80) →
      (dataSourceExtipRead P world now d).2.ipaddress =
        some (trimASCIIWhitespace rsp.Body.data)) := by
  obtain ⟨-, hset⟩ := hok
  obtain ⟨ip, hip⟩ := Option.isSome_iff_exists.mp hset
  obtain ⟨body, hbody, hipeq, -⟩ := dataSourceExtipRead_published P world now d ip hfresh hip
  rw [hget] at hbody
  have hdata : rsp.Body.data = body := by
    have := Except.ok.inj hbody
    rw [this]
  rw [hdata, hip, hipeq]
  refine ⟨rfl, TrimSpace_infix_trimASCIIWhitespace body, fun h => ?_, fun h => ?_⟩
  · rw [TrimSpace_of_asciiAtBothEnds body h]
  · rw [TrimSpace_of_asciiAtBothEnds body (asciiAtBothEnds_of_all_ascii body h)]

/-- Witness of C5 (amended): the body `127.0.0.1` followed by a newline is
published as `127.0.0.1`. -/
theorem dataSourceExtipRead_publishes_trimmed_body_witness :
    (dataSourceExtipRead acceptingParsers (okTransport (asciiBytes "127.0.0.1\n")) "t"
      (defaultConfig none)).2.ipaddress = some (asciiBytes "127.0.0.1") :=
  ((dataSourceExtipRead_publishes_trimmed_body acceptingParsers
    (okTransport (asciiBytes "127.0.0.1\n")) "t" (defaultConfig none)
    ⟨200, ⟨asciiBytes "127.0.0.1\n", none⟩⟩ rfl rfl ⟨by decide, by decide⟩).2.2.1
    (by decide)).trans (by decide)

/-- A body that is empty or holds only ASCII whitespace is trimmed to the empty
string. -/
theorem TrimSpace_of_all_whitespace (body : GoBytes)
    (h : ∀ b ∈ body, isASCIIWhitespace b = true) : bytes.TrimSpace body = [] := by
  rw [TrimSpace_eq, List.dropWhile_eq_nil_iff.mpr h]

/-- C6 (amended): whenever `dataSourceExtipRead` succeeds with `validate_ip`
set to true, the `ipaddress` it publishes is a non-empty string.  With
`validate_ip` unset or false, every 200 response whose body is read to the end
makes the read succeed: it returns no diagnostic, sets the id and publishes
`bytes.TrimSpace` of the body, which is the empty string when the body is
empty or holds only ASCII whitespace. -/
theorem dataSourceExtipRead_validated_nonempty (P : net.Parsers) (world : http.Transport)
    (now : String) (d : ResourceData) :
    (d.ipaddress = none → d.validate_ip = some true →
      ReadSucceeded (dataSourceExtipRead P world now d) →
      ∃ ip, (dataSourceExtipRead P world now d).2.ipaddress = some ip ∧ ip ≠ []) ∧
    (d.validate_ip ≠ some true → ∀ body : GoBytes,
      world (clientTimeoutDuration d.client_timeout) d.resolver = .ok ⟨200, ⟨body, none⟩⟩ →
      dataSourceExtipRead P world now d =
        ([], { d with ipaddress := some (bytes.TrimSpace body), id := some now }) ∧
      ReadSucceeded (dataSourceExtipRead P world now d) ∧
      ((∀ b ∈ body, isASCIIWhitespace b = true) →
        (dataSourceExtipRead P world now d).2.ipaddress = some [])) := by
  constructor
  · intro hfresh hv hok
    obtain ⟨-, hset⟩ := hok
    rw [dataSourceExtipRead_eq] at hset ⊢
    cases hres : (getExternalIPFrom world d.resolver d.client_timeout).err with
    | some msg => rw [hres] at hset; simp [hfresh] at hset
    | none =>
      rw [hres] at hset
      simp only at hset ⊢
      by_cases hp : net.ParseIP P (getExternalIPFrom world d.resolver d.client_timeout).ip = none
      · rw [if_pos ⟨hv, hp⟩] at hset
        simp [hfresh] at hset
      · rw [if_neg (fun h => hp h.2)]
        refine ⟨_, rfl, ?_⟩
        intro hnil
        rw [hnil] at hp
        exact hp rfl
  · intro hv body hget
    have hclient := getExternalIPFrom_of_body world d.resolver d.client_timeout body hget
    have hread : dataSourceExtipRead P world now d =
        ([], { d with ipaddress := some (bytes.TrimSpace body), id := some now }) := by
      rw [dataSourceExtipRead_eq, hclient]
      simp only
      rw [if_neg (fun h => hv h.1)]
    refine ⟨hread, ?_, fun hws => ?_⟩
    · rw [hread]
      exact ⟨rfl, rfl⟩
    · rw [hread, TrimSpace_of_all_whitespace body hws]

/-- Witness of C6 (amended): with `validate_ip` true the body `127.0.0.1`
followed by a newline is published non-empty; with `validate_ip` false a body
of a carriage return and a newline is published as the empty string. -/
theorem dataSourceExtipRead_validated_nonempty_witness :
    (∃ ip, (dataSourceExtipRead acceptingParsers (okTransport (asciiBytes "127.0.0.1\n")) "t"
      (defaultConfig (some true))).2.ipaddress = some ip ∧ ip ≠ []) ∧
    (dataSourceExtipRead acceptingParsers (okTransport (asciiBytes "\r\n")) "t"
      (defaultConfig (some false))).2.ipaddress = some [] :=
  ⟨(dataSourceExtipRead_validated_nonempty acceptingParsers
      (okTransport (asciiBytes "127.0.0.1\n")) "t" (defaultConfig (some true))).1 rfl rfl
      ⟨by decide, by decide⟩,
    ((dataSourceExtipRead_validated_nonempty acceptingParsers
      (okTransport (asciiBytes "\r\n")) "t" (defaultConfig (some false))).2 (by decide)
      (asciiBytes "\r\n") rfl).2.2 (by simp [asciiBytes]; decide)⟩

/-! ## Adequacy of the fuel -/

/-- The loop of `indexFunc` does not depend on its fuel once the fuel covers the
bytes from `start` on: every iteration advances by at least one byte. -/
theorem indexFunc_loop_fuel (s : GoBytes) (f : Rune → Bool) (truth : Bool) (fuel1 : Nat) :
    ∀ (fuel2 start : Nat), s.length ≤ fuel1 + start → s.length ≤ fuel2 + start →
      bytes.indexFunc.loop s f truth fuel1 start = bytes.indexFunc.loop s f truth fuel2 start := by
  induction fuel1 with
  | zero =>
    intro fuel2 start h1 h2
    cases fuel2 with
    | zero => rfl
    | succ fuel2 =>
      have : ¬ start < s.length := by omega
      simp [bytes.indexFunc.loop, this]
  | succ fuel1 ih =>
    intro fuel2 start h1 h2
    cases fuel2 with
    | zero =>
      have : ¬ start < s.length := by omega
      simp [bytes.indexFunc.loop, this]
    | succ fuel2 =>
      unfold bytes.indexFunc.loop
      by_cases hlt : start < s.length
      · simp only [hlt, if_true]
        have hdrop : s.drop start ≠ [] := by
          intro hnil
          have := congrArg List.length hnil
          rw [List.length_drop, List.length_nil] at this
          omega
        have hw := (DecodeRune_width _ hdrop).1
        split_ifs
        · rfl
        · exact ih _ _ (by omega) (by omega)
        · rfl
        · exact ih _ _ (by omega) (by omega)
      · simp only [hlt, if_false]

/-- The loop of `lastIndexFunc` does not depend on its fuel once the fuel
covers the bytes below `i`: every iteration steps back by at least one byte. -/
theorem lastIndexFunc_loop_fuel (s : GoBytes) (f : Rune → Bool) (truth : Bool) (fuel1 : Nat) :
    ∀ (fuel2 : Nat) (i : Int), 0 ≤ i → i ≤ s.length → i ≤ fuel1 → i ≤ fuel2 →
      bytes.lastIndexFunc.loop s f truth fuel1 i = bytes.lastIndexFunc.loop s f truth fuel2 i := by
  induction fuel1 with
  | zero =>
    intro fuel2 i h0 hlen h1 h2
    cases fuel2 with
    | zero => rfl
    | succ fuel2 =>
      have : ¬ i > 0 := by omega
      simp [bytes.lastIndexFunc.loop, this]
  | succ fuel1 ih =>
    intro fuel2 i h0 hlen h1 h2
    cases fuel2 with
    | zero =>
      have : ¬ i > 0 := by omega
      simp [bytes.lastIndexFunc.loop, this]
    | succ fuel2 =>
      unfold bytes.lastIndexFunc.loop
      by_cases hpos : i > 0
      · simp only [hpos, if_true]
        have htake : s.take i.toNat ≠ [] := by
          intro hnil
          have := congrArg List.length hnil
          rw [List.length_take, List.length_nil] at this
          omega
        have htl : (s.take i.toNat).length = i.toNat := by
          simp only [List.length_take]; omega
        obtain ⟨w1, w2, -⟩ := DecodeLastRune_width _ htake
        rw [htl] at w2
        split_ifs
        · rfl
        · exact ih _ _ (by omega) (by omega) (by push_cast at h1 ⊢; omega)
            (by push_cast at h2 ⊢; omega)
        · rfl
        · exact ih _ _ (by omega) (by omega) (by push_cast at h1 ⊢; omega)
            (by push_cast at h2 ⊢; omega)
      · simp only [hpos, if_false]

/-- The backward scan of `utf8.DecodeLastRune` does not depend on its fuel once
the fuel exceeds the distance from `start` down to `lim`; in `DecodeLastRune`
that distance is at most two and the fuel is `UTFMax`. -/
theorem DecodeLastRune_scan_fuel (p : GoBytes) (lim : Int) (fuel1 : Nat) :
    ∀ (fuel2 : Nat) (start : Int), start < lim + fuel1 → start < lim + fuel2 →
      utf8.DecodeLastRune.scan p lim fuel1 start = utf8.DecodeLastRune.scan p lim fuel2 start := by
  induction fuel1 with
  | zero =>
    intro fuel2 start h1 h2
    cases fuel2 with
    | zero => rfl
    | succ fuel2 =>
      have : ¬ start ≥ lim := by push_cast at h1; omega
      simp [utf8.DecodeLastRune.scan, this]
  | succ fuel1 ih =>
    intro fuel2 start h1 h2
    cases fuel2 with
    | zero =>
      have : ¬ start ≥ lim := by push_cast at h2; omega
      simp [utf8.DecodeLastRune.scan, this]
    | succ fuel2 =>
      unfold utf8.DecodeLastRune.scan
      split_ifs
      · rfl
      · exact ih _ _ (by push_cast at h1 ⊢; omega) (by push_cast at h2 ⊢; omega)
      · rfl

end Extip
